import Mathlib

/-
  Shallow embedding of the watch-party synchronization engine:
  - the server's in-memory Session Store and its socket event handlers
    (src/server/index.js),
  - the client VideoPlayer sync effect (the Client Synchronization
    Controller),
  - the WebRTC health-monitoring sweep (src/hooks/useWebRTC.ts).

  JavaScript objects used as ordered string-keyed maps are embedded as
  association lists (JS object string keys preserve insertion order;
  assigning an existing key keeps its position, new keys append at the
  end).  Numeric quantities (seconds, drift) are embedded as rationals,
  timestamps in milliseconds as integers.
-/

namespace WatchParty

/-- Association-list lookup, embedding `obj[k]` on a JS object. -/
def lookupA {α : Type} (l : List (String × α)) (k : String) : Option α :=
  match l with
  | [] => none
  | (k0, v) :: t => if k0 = k then some v else lookupA t k

/-- Association-list upsert, embedding `obj[k] = v`: an existing key keeps
its position, a new key is appended at the end. -/
def upsertA {α : Type} (l : List (String × α)) (k : String) (v : α) :
    List (String × α) :=
  match l with
  | [] => [(k, v)]
  | (k0, v0) :: t => if k0 = k then (k0, v) :: t else (k0, v0) :: upsertA t k v

/-- Association-list removal, embedding `delete obj[k]`. -/
def removeA {α : Type} (l : List (String × α)) (k : String) :
    List (String × α) :=
  match l with
  | [] => []
  | (k0, v0) :: t => if k0 = k then t else (k0, v0) :: removeA t k

/-- An untyped JS value, for fields outside the VideoState schema. -/
inductive JsVal : Type
  | num (q : ℚ)
  | str (s : String)
  | bool (b : Bool)
  deriving DecidableEq, Repr

/-- The per-user connection-quality record kept by the server
(`rooms[roomId].users[userId].connectionQuality`). -/
structure ConnectionQuality : Type where
  lastReportTime : Int
  averageDrift : ℚ
  reportCount : Nat
  quality : String
  deriving DecidableEq, Repr

/-- One entry of a room's `users` object on the server. -/
structure User : Type where
  id : String
  username : String
  socketId : String
  connectionQuality : Option ConnectionQuality
  deriving DecidableEq, Repr

/-- The stored VideoState.  The schema'd fields are explicit; `extra`
holds any fields outside the schema that a patch has smuggled in (the
server performs an unrestricted object spread). -/
structure VideoState : Type where
  isPlaying : Bool
  playedSeconds : ℚ
  url : String
  lastUpdated : Int
  updatedBy : String
  serverTimestamp : Int
  isBuffering : Bool
  playbackRate : ℚ
  extra : List (String × JsVal)
  deriving DecidableEq, Repr

/-- A client `video-state` patch: any subset of the schema'd fields plus
arbitrary unknown fields. -/
structure VideoPatch : Type where
  isPlaying : Option Bool := none
  playedSeconds : Option ℚ := none
  url : Option String := none
  updatedBy : Option String := none
  isBuffering : Option Bool := none
  playbackRate : Option ℚ := none
  lastUpdated : Option Int := none
  serverTimestamp : Option Int := none
  extra : List (String × JsVal) := []
  deriving DecidableEq, Repr

/-- An inbound chat message (client side, before the server stamps it). -/
structure ChatMsgIn : Type where
  id : String
  userId : String
  username : String
  message : String
  timestamp : Option Int
  deriving DecidableEq, Repr

/-- A stored chat message, with the server-assigned timestamp. -/
structure ChatMessage : Type where
  id : String
  userId : String
  username : String
  message : String
  timestamp : Int
  deriving DecidableEq, Repr

/-- One room record of the in-memory `rooms` store. -/
structure Room : Type where
  users : List (String × User)
  hostId : String
  videoState : VideoState
  messages : List ChatMessage
  createdAt : Int
  syncCheckpoint : Int
  deriving DecidableEq, Repr

/-- Where an emitted socket event is delivered. -/
inductive Target : Type
  | room (roomId : String)
  | roomExceptSender (roomId : String) (senderSocket : String)
  | socket (socketId : String)
  deriving DecidableEq, Repr

/-- The server-emitted socket events relevant to the claims. -/
inductive SEvent : Type
  | updateUsers (users : List User)
  | syncState (videoState : VideoState) (messages : List ChatMessage)
      (users : List User) (hostId : String)
  | hostAssigned
  | userConnected (userId : String)
  | videoStateEv (vs : VideoState)
  | syncCorrection (playedSeconds : ℚ) (isPlaying : Bool)
      (serverTimestamp : Int) (drift : ℚ) (connectionQuality : String)
  | chatMessageEv (msg : ChatMessage)
  | signalEv (fromUser : String) (ty : String) (data : String)
  | userDisconnected (userId : String)
  | hostChanged (hostId : String) (hostUsername : String)
  deriving DecidableEq, Repr

abbrev Emission : Type := Target × SEvent

/-- The server's `rooms` object. -/
abbrev Store : Type := List (String × Room)

/-- The VideoState a freshly created room starts with. -/
def initialVideoState (now : Int) : VideoState :=
  { isPlaying := false
    playedSeconds := 0
    url := ""
    lastUpdated := now
    updatedBy := ""
    serverTimestamp := now
    isBuffering := false
    playbackRate := 1
    extra := [] }

/-- Merging the unknown-field parts of an object spread: the patch's extra
fields are upserted, in order, into the stored extras. -/
def mergeExtra (old patch : List (String × JsVal)) : List (String × JsVal) :=
  patch.foldl (fun acc kv => upsertA acc kv.1 kv.2) old

/-- `{...old, ...patch, lastUpdated: now, serverTimestamp: now}`:
patch fields override stored fields, the server stamps both timestamps
with its own clock, and unknown patch fields are carried into `extra`. -/
def applyPatch (vs : VideoState) (p : VideoPatch) (now : Int) : VideoState :=
  { isPlaying := p.isPlaying.getD vs.isPlaying
    playedSeconds := p.playedSeconds.getD vs.playedSeconds
    url := p.url.getD vs.url
    lastUpdated := now
    updatedBy := p.updatedBy.getD vs.updatedBy
    serverTimestamp := now
    isBuffering := p.isBuffering.getD vs.isBuffering
    playbackRate := p.playbackRate.getD vs.playbackRate
    extra := mergeExtra vs.extra p.extra }

/-- The `join-room` handler: create the room if absent (first joiner
becomes host), upsert the user, broadcast the roster, send the snapshot
to the joiner, notify the joiner when they are host, and announce the
connection to the others. -/
def joinRoom (s : Store) (now : Int)
    (roomId userId username socketId : String) : Store × List Emission :=
  let room0 : Room :=
    match lookupA s roomId with
    | some r => r
    | none =>
        { users := []
          hostId := userId
          videoState := initialVideoState now
          messages := []
          createdAt := now
          syncCheckpoint := now }
  let room1 : Room :=
    { room0 with
        users := upsertA room0.users userId
          { id := userId, username := username, socketId := socketId
            connectionQuality := none } }
  let ems : List Emission :=
    [(Target.room roomId, SEvent.updateUsers (room1.users.map (·.2))),
     (Target.socket socketId,
        SEvent.syncState room1.videoState room1.messages
          (room1.users.map (·.2)) room1.hostId)]
    ++ (if room1.hostId = userId
        then [(Target.socket socketId, SEvent.hostAssigned)] else [])
    ++ [(Target.roomExceptSender roomId socketId,
          SEvent.userConnected userId)]
  (upsertA s roomId room1, ems)

/-- The `video-state` handler: no-op when the room is absent; otherwise
merge the patch, stamp the server timestamps, store the result and
broadcast it to the whole room (sender included). -/
def videoStateHandler (s : Store) (now : Int) (roomId : String)
    (p : VideoPatch) : Store × List Emission :=
  match lookupA s roomId with
  | none => (s, [])
  | some r =>
      let vs := applyPatch r.videoState p now
      (upsertA s roomId { r with videoState := vs },
       [(Target.room roomId, SEvent.videoStateEv vs)])

/-- The connection-quality record created on a user's first position
report. -/
def initQuality (now : Int) : ConnectionQuality :=
  { lastReportTime := now, averageDrift := 0, reportCount := 0
    quality := "good" }

/-- One connection-quality update:
`count++; avg = (avg*(count-1) + drift)/count`, then re-derive the
quality level from the new average. -/
def updateQuality (q : ConnectionQuality) (drift : ℚ) (now : Int) :
    ConnectionQuality :=
  let n : Nat := q.reportCount + 1
  let avg : ℚ := (q.averageDrift * ((n : ℚ) - 1) + drift) / (n : ℚ)
  { lastReportTime := now
    averageDrift := avg
    reportCount := n
    quality :=
      if avg < 0.5 then "good" else if avg < 1.5 then "fair" else "poor" }

/-- The `position-report` handler.  Returns `none` when the room exists
but the reporting user is not in it (the JS code then dereferences
`undefined` and throws).  Otherwise: update the user's connection
quality and, iff drift > 0.3 and the stored state is playing and the
report is not buffering, emit a targeted `sync-correction` to the
reporting user's socket only. -/
def positionReport (s : Store) (now : Int) (roomId userId : String)
    (playedSeconds : ℚ) (isBuffering : Bool) :
    Option (Store × List Emission) :=
  match lookupA s roomId with
  | none => some (s, [])
  | some r =>
      match lookupA r.users userId with
      | none => none
      | some u =>
          let drift : ℚ := |playedSeconds - r.videoState.playedSeconds|
          let q1 := updateQuality (u.connectionQuality.getD (initQuality now))
            drift now
          let u1 : User := { u with connectionQuality := some q1 }
          let r1 : Room := { r with users := upsertA r.users userId u1 }
          let ems : List Emission :=
            if drift > 0.3 ∧ r.videoState.isPlaying ∧ isBuffering = false then
              (if u.socketId ≠ "" then
                [(Target.socket u.socketId,
                  SEvent.syncCorrection r.videoState.playedSeconds
                    r.videoState.isPlaying now drift q1.quality)]
              else [])
            else []
          some (upsertA s roomId r1, ems)

/-- `{...message, timestamp: Date.now()}`: the server assigns the
timestamp, overriding any client-supplied one. -/
def stampMsg (m : ChatMsgIn) (now : Int) : ChatMessage :=
  { id := m.id, userId := m.userId, username := m.username
    message := m.message, timestamp := now }

/-- Append one stamped message; when the log exceeds 100, shift off the
oldest. -/
def appendChat (l : List ChatMessage) (m : ChatMessage) : List ChatMessage :=
  let l2 := l ++ [m]
  if 100 < l2.length then l2.tail else l2

/-- The `chat-message` handler: no-op when the room is absent; otherwise
stamp, append with FIFO eviction at capacity 100, and broadcast the
stamped message. -/
def chatMessageHandler (s : Store) (now : Int) (roomId : String)
    (m : ChatMsgIn) : Store × List Emission :=
  match lookupA s roomId with
  | none => (s, [])
  | some r =>
      let msg := stampMsg m now
      (upsertA s roomId { r with messages := appendChat r.messages msg },
       [(Target.room roomId, SEvent.chatMessageEv msg)])

/-- The `signal` handler: deliver to the target user's socket when both
the room and the target exist; otherwise only log a diagnostic. -/
def signalHandler (s : Store) (roomId toUser fromUser ty data : String) :
    Store × List Emission :=
  match lookupA s roomId with
  | none => (s, [])
  | some r =>
      match lookupA r.users toUser with
      | none => (s, [])
      | some u =>
          (s, [(Target.socket u.socketId, SEvent.signalEv fromUser ty data)])

/-- The per-room part of the `disconnecting` handler: find the user by
socket id, remove them, announce the departure and the new roster;
transfer the host role to the first remaining user when the host left a
non-empty room; delete the room when it became empty. -/
def handleLeave (s : Store) (roomId socketId : String) :
    Store × List Emission :=
  match lookupA s roomId with
  | none => (s, [])
  | some r =>
      match r.users.find? (fun kv => kv.2.socketId = socketId) with
      | none => (s, [])
      | some p =>
          let users1 := removeA r.users p.1
          let ems0 : List Emission :=
            [(Target.room roomId, SEvent.userDisconnected p.1),
             (Target.room roomId, SEvent.updateUsers (users1.map (·.2)))]
          match users1 with
          | [] => (removeA s roomId, ems0)
          | (nhId, nh) :: tl =>
              if r.hostId = p.1 then
                (upsertA s roomId
                  { r with users := (nhId, nh) :: tl, hostId := nhId },
                 ems0 ++
                   [(Target.room roomId, SEvent.hostChanged nhId nh.username),
                    (Target.socket nh.socketId, SEvent.hostAssigned)])
              else
                (upsertA s roomId { r with users := (nhId, nh) :: tl }, ems0)

/-- A join or leave operation, for room-lifecycle sequences. -/
inductive ServerOp : Type
  | join (roomId userId username socketId : String) (now : Int)
  | leave (roomId socketId : String)
  deriving DecidableEq, Repr

/-- Apply one operation to the store. -/
def applyOp (s : Store) (op : ServerOp) : Store × List Emission :=
  match op with
  | .join roomId userId username socketId now =>
      joinRoom s now roomId userId username socketId
  | .leave roomId socketId => handleLeave s roomId socketId

/-- Apply a sequence of operations to the store. -/
def applyOps (s : Store) (ops : List ServerOp) : Store :=
  ops.foldl (fun st op => (applyOp st op).1) s

/-- The client-side VideoState as held by the VideoPlayer (its
`serverTimestamp` field is optional in the TypeScript type). -/
structure CVideoState : Type where
  isPlaying : Bool
  playedSeconds : ℚ
  url : String
  lastUpdated : Int
  updatedBy : String
  serverTimestamp : Option Int
  deriving DecidableEq, Repr

/-- The latency-compensated seek target of the VideoPlayer sync effect:
`playedSeconds + min((now - serverTimestamp)/1000, 2.0)` when playing
and the server timestamp is present and truthy, else raw
`playedSeconds`. -/
def adjustedTargetOf (v : CVideoState) (nowMs : Int) : ℚ :=
  match v.serverTimestamp with
  | some ts =>
      if v.isPlaying ∧ ts ≠ 0 then
        v.playedSeconds + min (((nowMs - ts : Int) : ℚ) / 1000) 2.0
      else v.playedSeconds
  | none => v.playedSeconds

/-- The VideoPlayer sync effect's seek decision: `some target` when a
corrective seek to `target` is issued, `none` otherwise.  The effect
closes over `localBuffering` but never reads it. -/
def syncEffectSeek (isReady hasPlayer : Bool) (videoState : Option CVideoState)
    (userId : String) (localPosition : ℚ) (nowMs : Int)
    (localBuffering : Bool) : Option ℚ :=
  if isReady ∧ hasPlayer then
    match videoState with
    | none => none
    | some v =>
        let adjustedTarget := adjustedTargetOf v nowMs
        let shouldSync : Prop :=
          v.updatedBy ≠ userId ∨ |localPosition - v.playedSeconds| > 2.0
        if shouldSync ∧ |localPosition - adjustedTarget| > 0.3 then
          some adjustedTarget
        else none
  else none

/-- RTCPeerConnection connection states. -/
inductive ConnState : Type
  | new | connecting | connected | disconnected | failed | closed
  deriving DecidableEq, Repr

/-- The health-monitoring state of the WebRTC hook: the tracked peer
connections with their reported states, and the list of currently
pending reconnect timers (one list entry per live timer). -/
structure RTCHealth : Type where
  peers : List (String × ConnState)
  timers : List String
  deriving DecidableEq, Repr

/-- One peer's step of the health sweep: when the connection is failed or
disconnected and no reconnect timer is pending for that peer, schedule
exactly one; when one is already pending, do nothing. -/
def sweepPeer (st : RTCHealth) (p : String × ConnState) : RTCHealth :=
  if p.2 = ConnState.failed ∨ p.2 = ConnState.disconnected then
    if p.1 ∈ st.timers then st
    else { st with timers := st.timers ++ [p.1] }
  else st

/-- One tick of the 3s health-monitoring interval: skip everything when
the page is hidden, otherwise sweep every tracked connection. -/
def healthSweep (visible : Bool) (st : RTCHealth) : RTCHealth :=
  if visible then st.peers.foldl sweepPeer st else st

/-- Folding the connection-quality update over a list of drift values,
starting from the record created at a user's first report. -/
def foldQuality (ds : List ℚ) (now : Int) : ConnectionQuality :=
  ds.foldl (fun q d => updateQuality q d now) (initQuality now)

/-! Concrete fixtures used by witnesses and counterexamples. -/

/-- A member of the fixture rooms. -/
def aliceUser : User :=
  { id := "alice", username := "Alice", socketId := "sockA"
    connectionQuality := none }

/-- A one-member room whose video is playing at 120s. -/
def playingRoom : Room :=
  { users := [("alice", aliceUser)]
    hostId := "alice"
    videoState :=
      { initialVideoState 0 with isPlaying := true, playedSeconds := 120 }
    messages := []
    createdAt := 0
    syncCheckpoint := 0 }

/-- A store holding `playingRoom` under id "r". -/
def playingStore : Store := [("r", playingRoom)]

/-- An authoritative client-side state authored by alice: playing at
120s, stamped at server time 1000000ms. -/
def bobIncomingState : CVideoState :=
  { isPlaying := true, playedSeconds := 120, url := "u", lastUpdated := 0
    updatedBy := "alice", serverTimestamp := some 1000000 }

/-- A self-authored client-side state: playing at 120s, stamped at
server time 1000ms, authored by the local user "me". -/
def selfAuthoredState : CVideoState :=
  { isPlaying := true, playedSeconds := 120, url := "u", lastUpdated := 0
    updatedBy := "me", serverTimestamp := some 1000 }

/-- The same incoming state as `bobIncomingState`, for the buffering
counterexample. -/
def bufferingIncomingState : CVideoState :=
  { isPlaying := true, playedSeconds := 120, url := "u", lastUpdated := 0
    updatedBy := "alice", serverTimestamp := some 1000000 }

/-- Three joins of a room followed by the host's departure. -/
def c3ops : List ServerOp :=
  [ServerOp.join "r" "a" "Ana" "s1" 0,
   ServerOp.join "r" "b" "Ben" "s2" 1,
   ServerOp.join "r" "c" "Cal" "s3" 2,
   ServerOp.leave "r" "s1"]

/-- The room produced by `c3ops`: Ana left, Ben inherited the host
role. -/
def c3room : Room :=
  { users := [("b", { id := "b", username := "Ben", socketId := "s2"
                      connectionQuality := none }),
              ("c", { id := "c", username := "Cal", socketId := "s3"
                      connectionQuality := none })]
    hostId := "b"
    videoState := initialVideoState 0
    messages := []
    createdAt := 0
    syncCheckpoint := 0 }

/-- A three-member room hosted by "a", for the host-transfer witness. -/
def c3hostRoom : Room :=
  { users := [("a", { id := "a", username := "Ana", socketId := "s1"
                      connectionQuality := none }),
              ("b", { id := "b", username := "Ben", socketId := "s2"
                      connectionQuality := none }),
              ("c", { id := "c", username := "Cal", socketId := "s3"
                      connectionQuality := none })]
    hostId := "a"
    videoState := initialVideoState 0
    messages := []
    createdAt := 0
    syncCheckpoint := 0 }

/-- Store holding `c3hostRoom` under id "r". -/
def c3hostStore : Store := [("r", c3hostRoom)]

/-- A video-state patch carrying a field outside the VideoState schema. -/
def fooPatch : VideoPatch :=
  { isPlaying := some true, updatedBy := some "alice"
    extra := [("foo", JsVal.num 42)] }

/-- A paused one-member room. -/
def pausedRoom : Room :=
  { users := [("alice", aliceUser)]
    hostId := "alice"
    videoState := initialVideoState 0
    messages := []
    createdAt := 0
    syncCheckpoint := 0 }

/-- Store holding `pausedRoom` under id "r". -/
def pausedStore : Store := [("r", pausedRoom)]

/-- Health state with one tracked peer connection in the failed state
and no pending reconnect timer. -/
def failedPeerState : RTCHealth :=
  { peers := [("x", ConnState.failed)], timers := [] }

/-- 101 already-stored chat messages, to exercise the FIFO eviction. -/
def manyMessages : List ChatMessage :=
  (List.range 101).map (fun i =>
    { id := toString i, userId := "alice", username := "Alice"
      message := toString i, timestamp := 0 })

/-- An inbound chat message carrying a client-side timestamp that the
server must override. -/
def helloMsg : ChatMsgIn :=
  { id := "m1", userId := "alice", username := "Alice"
    message := "hi", timestamp := some 99 }

section AssocLemmas

variable {α : Type}

theorem lookupA_mem : ∀ {l : List (String × α)} {k : String} {v : α},
    lookupA l k = some v → (k, v) ∈ l := by
  intro l
  induction l with
  | nil => intro k v h; simp [lookupA] at h
  | cons hd t ih =>
      intro k v h
      obtain ⟨k0, v0⟩ := hd
      by_cases hk : k0 = k
      · subst hk
        simp [lookupA] at h
        simp [h]
      · simp [lookupA, hk] at h
        exact List.mem_cons_of_mem _ (ih h)

theorem lookupA_eq_none_of_not_mem :
    ∀ {l : List (String × α)} {k : String},
    k ∉ l.map (·.1) → lookupA l k = none := by
  intro l
  induction l with
  | nil => intro k _; rfl
  | cons hd t ih =>
      intro k h
      obtain ⟨k0, v0⟩ := hd
      simp only [List.map_cons, List.mem_cons] at h
      push_neg at h
      have hne : k0 ≠ k := fun hh => h.1 hh.symm
      simp [lookupA, hne, ih h.2]

theorem mem_upsertA : ∀ {l : List (String × α)} {k : String} {v : α}
    {p : String × α}, p ∈ upsertA l k v → p = (k, v) ∨ p ∈ l := by
  intro l
  induction l with
  | nil => intro k v p h; simp [upsertA] at h; exact Or.inl h
  | cons hd t ih =>
      intro k v p h
      obtain ⟨k0, v0⟩ := hd
      by_cases hk : k0 = k
      · subst hk
        simp [upsertA] at h
        rcases h with h | h
        · exact Or.inl h
        · exact Or.inr (List.mem_cons_of_mem _ h)
      · simp [upsertA, hk] at h
        rcases h with h | h
        · exact Or.inr (by simp [h])
        · rcases ih h with h1 | h1
          · exact Or.inl h1
          · exact Or.inr (List.mem_cons_of_mem _ h1)

theorem upsertA_ne_nil (l : List (String × α)) (k : String) (v : α) :
    upsertA l k v ≠ [] := by
  cases l with
  | nil => simp [upsertA]
  | cons hd t =>
      obtain ⟨k0, v0⟩ := hd
      by_cases hk : k0 = k <;> simp [upsertA, hk]

theorem lookupA_upsertA_self (l : List (String × α)) (k : String) (v : α) :
    lookupA (upsertA l k v) k = some v := by
  induction l with
  | nil => simp [upsertA, lookupA]
  | cons hd t ih =>
      obtain ⟨k0, v0⟩ := hd
      by_cases hk : k0 = k <;> simp [upsertA, lookupA, hk, ih]

theorem lookupA_upsertA_ne (l : List (String × α)) {k' k : String} (v : α)
    (h : k' ≠ k) : lookupA (upsertA l k v) k' = lookupA l k' := by
  have hne : k ≠ k' := Ne.symm h
  induction l with
  | nil => simp [upsertA, lookupA, hne]
  | cons hd t ih =>
      obtain ⟨k0, v0⟩ := hd
      by_cases hk : k0 = k
      · subst hk
        simp [upsertA, lookupA, hne]
      · simp [upsertA, lookupA, hk, ih]

theorem upsertA_upsertA_same (l : List (String × α)) (k : String) (v w : α) :
    upsertA (upsertA l k v) k w = upsertA l k w := by
  induction l with
  | nil => simp [upsertA]
  | cons hd t ih =>
      obtain ⟨k0, v0⟩ := hd
      by_cases hk : k0 = k <;> simp [upsertA, hk, ih]

theorem removeA_sublist : ∀ (l : List (String × α)) (k : String),
    (removeA l k).Sublist l := by
  intro l
  induction l with
  | nil => intro k; simp [removeA]
  | cons hd t ih =>
      intro k
      obtain ⟨k0, v0⟩ := hd
      by_cases hk : k0 = k
      · simpa [removeA, hk] using List.sublist_cons_self (k0, v0) t
      · simpa [removeA, hk] using List.Sublist.cons₂ (k0, v0) (ih k)

theorem lookupA_removeA_ne (l : List (String × α)) {k' k : String}
    (h : k' ≠ k) : lookupA (removeA l k) k' = lookupA l k' := by
  have hne : k ≠ k' := Ne.symm h
  induction l with
  | nil => simp [removeA]
  | cons hd t ih =>
      obtain ⟨k0, v0⟩ := hd
      by_cases hk : k0 = k
      · subst hk
        simp [removeA, lookupA, hne]
      · simp [removeA, lookupA, hk, ih]

theorem lookupA_mergeExtra_not_mem {patch : List (String × JsVal)}
    {k : String} :
    ∀ (old : List (String × JsVal)), k ∉ patch.map (·.1) →
    lookupA (mergeExtra old patch) k = lookupA old k := by
  induction patch with
  | nil => intro old _; rfl
  | cons hd t ih =>
      intro old h
      obtain ⟨k0, v0⟩ := hd
      simp only [List.map_cons, List.mem_cons] at h
      push_neg at h
      show lookupA (mergeExtra (upsertA old k0 v0) t) k = lookupA old k
      rw [ih _ h.2, lookupA_upsertA_ne _ _ (fun hh => h.1 hh)]

theorem lookupA_mergeExtra_of_mem {patch : List (String × JsVal)}
    {k : String} {v : JsVal} :
    ∀ (old : List (String × JsVal)), (patch.map (·.1)).Nodup →
    (k, v) ∈ patch → lookupA (mergeExtra old patch) k = some v := by
  induction patch with
  | nil => intro old _ h; simp at h
  | cons hd t ih =>
      intro old hnd hmem
      obtain ⟨k0, v0⟩ := hd
      simp only [List.map_cons, List.nodup_cons] at hnd
      rcases List.mem_cons.mp hmem with h | h
      · obtain ⟨hk, hv⟩ := Prod.mk.injEq .. ▸ h
        subst hk; subst hv
        show lookupA (mergeExtra (upsertA old k v) t) k = some v
        rw [lookupA_mergeExtra_not_mem _ hnd.1, lookupA_upsertA_self]
      · show lookupA (mergeExtra (upsertA old k0 v0) t) k = some v
        exact ih _ hnd.2 h

end AssocLemmas

/-- C2 counterexample: the ">2.0 safety net" is not unconditional.  A
self-authored state (playing at 120s, stamped 3s ago so the latency
compensation caps at 2.0s and the adjusted target is 122.0s) received
with a local position of 122.1s has |local − playedSeconds| = 2.1 > 2.0,
so the claim demands a seek; the code computes an adjusted drift of only
0.1 ≤ 0.3 and issues none. -/
theorem sync_seek_not_unconditional :
    |(122.1 : ℚ) - 120| > 2.0 ∧
    syncEffectSeek true true (some selfAuthoredState) "me" 122.1 4000 false
      = none := by
  constructor
  · norm_num [abs, max_def]
  · norm_num [syncEffectSeek, adjustedTargetOf, selfAuthoredState, abs,
      max_def, min_def]

/-- C2 (amended): for an authoritative state (server timestamp present
and nonzero), the adjusted target is playedSeconds plus the capped
latency compensation when playing, else raw playedSeconds; a corrective
seek to the adjusted target is issued iff (the state was not authored by
the local user OR |localPosition − playedSeconds| > 2.0) AND
|localPosition − adjustedTarget| > 0.3.  The >2.0 condition only lifts
the self-authorship exemption; it does not force a seek by itself. -/
theorem sync_seek_decision (v : CVideoState) (userId : String)
    (localPosition : ℚ) (nowMs : Int) (localBuffering : Bool) (ts : Int)
    (hts : v.serverTimestamp = some ts) (hts0 : ts ≠ 0) :
    syncEffectSeek true true (some v) userId localPosition nowMs
        localBuffering =
      if (v.updatedBy ≠ userId ∨ |localPosition - v.playedSeconds| > 2.0) ∧
          |localPosition -
            (if v.isPlaying = true then
              v.playedSeconds + min (((nowMs - ts : Int) : ℚ) / 1000) 2.0
            else v.playedSeconds)| > 0.3 then
        some (if v.isPlaying = true then
                v.playedSeconds + min (((nowMs - ts : Int) : ℚ) / 1000) 2.0
              else v.playedSeconds)
      else none := by
  cases hIp : v.isPlaying <;>
    simp [syncEffectSeek, adjustedTargetOf, hts, hts0, hIp]

/-- C2 witness: the spec scenario.  B receives alice's state
{isPlaying, playedSeconds = 120, serverTimestamp = T} 400ms after T
while locally at 100s: the adjusted target is 120.4s and B seeks
there. -/
theorem sync_seek_decision_witness :
    syncEffectSeek true true (some bobIncomingState) "bob" 100 1000400 false
      = some (120.4 : ℚ) := by
  have h := sync_seek_decision bobIncomingState "bob" 100 1000400 false
    1000000 rfl (by decide)
  rw [h]
  norm_num [bobIncomingState, min_def, abs, max_def]

/-- C8 counterexample: a corrective seek is issued even while the local
player is buffering — the sync effect never consults the buffering
flag.  Same scenario as the C2 witness but with localBuffering set. -/
theorem seek_while_buffering :
    syncEffectSeek true true (some bufferingIncomingState) "bob" 100 1000400
      true = some (120.4 : ℚ) := by
  norm_num [syncEffectSeek, adjustedTargetOf, bufferingIncomingState, abs,
    max_def, min_def]

/-- C8 (amended): the local buffering flag plays no part in the
corrective-seek decision; the sync effect behaves identically whether or
not the player is buffering (buffering only suppresses server-side
sync-corrections, via the position report's isBuffering field). -/
theorem seek_independent_of_buffering (isReady hasPlayer : Bool)
    (videoState : Option CVideoState) (userId : String) (localPosition : ℚ)
    (nowMs : Int) (b1 b2 : Bool) :
    syncEffectSeek isReady hasPlayer videoState userId localPosition nowMs b1
      = syncEffectSeek isReady hasPlayer videoState userId localPosition
          nowMs b2 := rfl

/-- C9: events naming a missing room are no-ops on authoritative state —
no room is created, the store is unchanged and nothing is emitted — and
a signal to a present room but absent target user is likewise only a
logged diagnostic. -/
theorem missing_room_noop :
    (∀ (s : Store) (now : Int) (roomId userId toUser fromUser ty data :
          String) (p : VideoPatch) (ps : ℚ) (b : Bool) (m : ChatMsgIn),
      lookupA s roomId = none →
        videoStateHandler s now roomId p = (s, []) ∧
        positionReport s now roomId userId ps b = some (s, []) ∧
        chatMessageHandler s now roomId m = (s, []) ∧
        signalHandler s roomId toUser fromUser ty data = (s, []))
    ∧
    (∀ (s : Store) (roomId toUser fromUser ty data : String) (r : Room),
      lookupA s roomId = some r → lookupA r.users toUser = none →
        signalHandler s roomId toUser fromUser ty data = (s, [])) := by
  constructor
  · intro s now roomId userId toUser fromUser ty data p ps b m h
    refine ⟨?_, ?_, ?_, ?_⟩ <;>
      simp [videoStateHandler, positionReport, chatMessageHandler,
        signalHandler, h]
  · intro s roomId toUser fromUser ty data r hr hu
    simp [signalHandler, hr, hu]

/-- C9 witness: on the empty store every handler is a no-op, and in a
room without user "ghost" a signal to "ghost" is dropped. -/
theorem missing_room_noop_witness :
    (videoStateHandler [] 0 "r" fooPatch = ([], []) ∧
     positionReport [] 0 "r" "alice" 1 false = some ([], []) ∧
     chatMessageHandler [] 0 "r"
       { id := "m1", userId := "alice", username := "Alice"
         message := "hi", timestamp := none } = ([], []) ∧
     signalHandler [] "r" "bob" "alice" "offer" "d" = ([], [])) ∧
    signalHandler pausedStore "r" "ghost" "alice" "offer" "d"
      = (pausedStore, []) := by
  constructor
  · exact missing_room_noop.1 [] 0 "r" "alice" "bob" "alice" "offer" "d"
      fooPatch 1 false
      { id := "m1", userId := "alice", username := "Alice"
        message := "hi", timestamp := none } rfl
  · exact missing_room_noop.2 pausedStore "r" "ghost" "alice" "offer" "d"
      pausedRoom rfl rfl

/-- The C3 per-room invariant: a stored room has at least one user and
its hostId is a key of its users map. -/
def RoomInv (r : Room) : Prop :=
  r.users ≠ [] ∧ (lookupA r.users r.hostId).isSome = true

/-- The C3 store invariant: every stored room satisfies `RoomInv`. -/
def StoreInv (s : Store) : Prop := ∀ p ∈ s, RoomInv p.2

theorem joinRoom_inv (s : Store) (now : Int)
    (roomId userId username socketId : String) (h : StoreInv s) :
    StoreInv (joinRoom s now roomId userId username socketId).1 := by
  intro p hp
  have hp' := mem_upsertA hp
  rcases hp' with hp' | hp'
  · subst hp'
    dsimp only
    constructor
    · exact upsertA_ne_nil _ _ _
    · cases hlk : lookupA s roomId with
      | none =>
          simp only [joinRoom, hlk]
          rw [lookupA_upsertA_self]
          rfl
      | some r =>
          simp only [joinRoom, hlk]
          by_cases hh : r.hostId = userId
          · rw [hh, lookupA_upsertA_self]
            rfl
          · rw [lookupA_upsertA_ne _ _ hh]
            exact (h (roomId, r) (lookupA_mem hlk)).2
  · exact h p hp'

theorem handleLeave_inv (s : Store) (roomId socketId : String)
    (h : StoreInv s) : StoreInv (handleLeave s roomId socketId).1 := by
  cases hlk : lookupA s roomId with
  | none => simpa [handleLeave, hlk] using h
  | some r =>
      cases hfind : r.users.find? (fun kv => kv.2.socketId = socketId) with
      | none => simpa [handleLeave, hlk, hfind] using h
      | some q =>
          cases husers : removeA r.users q.1 with
          | nil =>
              have hres : (handleLeave s roomId socketId).1
                  = removeA s roomId := by
                simp [handleLeave, hlk, hfind, husers]
              rw [hres]
              intro p hp
              exact h p (List.Sublist.mem hp (removeA_sublist s roomId))
          | cons nh tl =>
              by_cases hhost : r.hostId = q.1
              · have hres : (handleLeave s roomId socketId).1
                    = upsertA s roomId
                        { r with users := nh :: tl, hostId := nh.1 } := by
                  simp [handleLeave, hlk, hfind, husers, hhost]
                rw [hres]
                intro p hp
                rcases mem_upsertA hp with hp' | hp'
                · subst hp'
                  refine ⟨by simp, ?_⟩
                  simp [lookupA]
                · exact h p hp'
              · have hres : (handleLeave s roomId socketId).1
                    = upsertA s roomId { r with users := nh :: tl } := by
                  simp [handleLeave, hlk, hfind, husers, hhost]
                rw [hres]
                intro p hp
                rcases mem_upsertA hp with hp' | hp'
                · subst hp'
                  refine ⟨by simp, ?_⟩
                  have hold := (h (roomId, r) (lookupA_mem hlk)).2
                  have hstep : lookupA (nh :: tl) r.hostId
                      = lookupA r.users r.hostId := by
                    rw [← husers]
                    exact lookupA_removeA_ne _ hhost
                  dsimp only
                  rw [hstep]
                  exact hold
                · exact h p hp'

theorem applyOps_inv (ops : List ServerOp) :
    ∀ s : Store, StoreInv s → StoreInv (applyOps s ops) := by
  induction ops with
  | nil => intro s h; exact h
  | cons op t ih =>
      intro s h
      cases op with
      | join roomId userId username socketId now =>
          exact ih _ (joinRoom_inv s now roomId userId username socketId h)
      | leave roomId socketId =>
          exact ih _ (handleLeave_inv s roomId socketId h)

/-- C3: along any sequence of joins and leaves from the empty store, a
room exists only with at least one user and with its hostId present in
its users map (rooms are created on first join and deleted the instant
they empty); and when the host's socket leaves a room whose remaining
roster is non-empty, the first remaining user becomes host, the
departure and roster are announced, host-changed is broadcast exactly
once, host-assigned is sent exactly once to the new host's socket, and
the room stays in the store. -/
theorem room_lifecycle (ops : List ServerOp) (roomId : String) (room : Room)
    (s : Store) (socketId : String) (r : Room) (q : String × User)
    (nh : String × User) (tl : List (String × User))
    (hroom : lookupA (applyOps [] ops) roomId = some room)
    (hr : lookupA s roomId = some r)
    (hfind : r.users.find? (fun kv => kv.2.socketId = socketId) = some q)
    (hhost : r.hostId = q.1)
    (husers : removeA r.users q.1 = nh :: tl) :
    (room.users ≠ [] ∧ (lookupA room.users room.hostId).isSome = true)
    ∧ handleLeave s roomId socketId =
        (upsertA s roomId { r with users := nh :: tl, hostId := nh.1 },
         [(Target.room roomId, SEvent.userDisconnected q.1),
          (Target.room roomId, SEvent.updateUsers ((nh :: tl).map (·.2))),
          (Target.room roomId, SEvent.hostChanged nh.1 nh.2.username),
          (Target.socket nh.2.socketId, SEvent.hostAssigned)]) := by
  constructor
  · have hinv : StoreInv (applyOps [] ops) :=
      applyOps_inv ops [] (by intro p hp; simp at hp)
    exact hinv (roomId, room) (lookupA_mem hroom)
  · simp [handleLeave, hr, hfind, husers, hhost]

/-- C3 witness: three joins then the host's departure leave a two-member
room with the second joiner as host; and on the concrete three-member
room hosted by "a", the departure of "a" promotes "b" — one
host-changed broadcast, one host-assigned to "b" only, and the room is
kept. -/
theorem room_lifecycle_witness :
    (c3room.users ≠ [] ∧ (lookupA c3room.users c3room.hostId).isSome = true)
    ∧ handleLeave c3hostStore "r" "s1" =
        (upsertA c3hostStore "r"
          { c3hostRoom with
              users := [("b", ⟨"b", "Ben", "s2", none⟩),
                        ("c", ⟨"c", "Cal", "s3", none⟩)]
              hostId := "b" },
         [(Target.room "r", SEvent.userDisconnected "a"),
          (Target.room "r",
            SEvent.updateUsers
              ([("b", (⟨"b", "Ben", "s2", none⟩ : User)),
                ("c", (⟨"c", "Cal", "s3", none⟩ : User))].map (·.2))),
          (Target.room "r", SEvent.hostChanged "b" "Ben"),
          (Target.socket "s2", SEvent.hostAssigned)]) :=
  room_lifecycle c3ops "r" c3room c3hostStore "s1" c3hostRoom
    ("a", ⟨"a", "Ana", "s1", none⟩) ("b", ⟨"b", "Ben", "s2", none⟩)
    [("c", ⟨"c", "Cal", "s3", none⟩)] rfl rfl rfl rfl rfl

theorem foldQuality_spec (now : Int) (ds : List ℚ) :
    (foldQuality ds now).reportCount = ds.length
    ∧ (foldQuality ds now).averageDrift * (ds.length : ℚ) = ds.sum := by
  induction ds using List.reverseRecOn with
  | nil => simp [foldQuality, initQuality]
  | append_singleton l d ih =>
      obtain ⟨ihc, ihs⟩ := ih
      have hfold : foldQuality (l ++ [d]) now
          = updateQuality (foldQuality l now) d now := by
        simp [foldQuality, List.foldl_append]
      constructor
      · rw [hfold]
        simp [updateQuality, ihc]
      · rw [hfold]
        simp only [updateQuality, ihc, List.length_append, List.sum_append,
          List.length_singleton, List.sum_singleton]
        have h1 : ((l.length + 1 : Nat) : ℚ) ≠ 0 := by
          push_cast
          positivity
        rw [div_mul_cancel₀ _ h1]
        have h2 : ((l.length + 1 : Nat) : ℚ) - 1 = (l.length : ℚ) := by
          push_cast
          ring
        rw [h2, ihs]

theorem foldQuality_quality (now : Int) (ds : List ℚ) (h : ds ≠ []) :
    (foldQuality ds now).quality =
      (if (foldQuality ds now).averageDrift < 0.5 then "good"
       else if (foldQuality ds now).averageDrift < 1.5 then "fair"
       else "poor") := by
  rcases List.eq_nil_or_concat ds with rfl | ⟨L, b, rfl⟩
  · exact absurd rfl h
  · have hfold : foldQuality (L.concat b) now
        = updateQuality (foldQuality L now) b now := by
      simp [foldQuality, List.concat_eq_append, List.foldl_append]
    rw [hfold]
    rfl

/-- C5: after k position reports with drift values d₁..dₖ the stored
connection-quality record has reportCount = k and averageDrift equal to
the exact arithmetic mean (d₁+...+dₖ)/k, and the derived level is
"good" below 0.5, "fair" below 1.5 and "poor" otherwise. -/
theorem averageDrift_cumulative (ds : List ℚ) (now : Int) (h : ds ≠ []) :
    (foldQuality ds now).reportCount = ds.length
    ∧ (foldQuality ds now).averageDrift = ds.sum / (ds.length : ℚ)
    ∧ (foldQuality ds now).quality =
        (if ds.sum / (ds.length : ℚ) < 0.5 then "good"
         else if ds.sum / (ds.length : ℚ) < 1.5 then "fair"
         else "poor") := by
  obtain ⟨hc, hs⟩ := foldQuality_spec now ds
  have hlen : ((ds.length : ℚ)) ≠ 0 := by
    have : 0 < ds.length := List.length_pos.mpr h
    positivity
  have havg : (foldQuality ds now).averageDrift = ds.sum / (ds.length : ℚ) :=
    (eq_div_iff hlen).mpr hs
  refine ⟨hc, havg, ?_⟩
  rw [foldQuality_quality now ds h, havg]

/-- C5 witness: two reports with drifts 1 and 2 — count 2, average
exactly 3/2, and 3/2 is not below the 1.5 threshold, so the level is
"poor". -/
theorem averageDrift_cumulative_witness :
    (foldQuality [1, 2] 0).reportCount = 2
    ∧ (foldQuality [1, 2] 0).averageDrift = 3 / 2
    ∧ (foldQuality [1, 2] 0).quality = "poor" := by
  have h := averageDrift_cumulative [1, 2] 0 (by simp)
  refine ⟨h.1, ?_, ?_⟩
  · rw [h.2.1]
    norm_num
  · rw [h.2.2]
    norm_num

theorem appendChat_eq (l : List ChatMessage) (m : ChatMessage) :
    appendChat l m =
      if 100 < (l ++ [m]).length then (l ++ [m]).tail else l ++ [m] := rfl

theorem chatFold_drop (ms : List ChatMessage) :
    ms.foldl appendChat [] = ms.drop (ms.length - 100) := by
  induction ms using List.reverseRecOn with
  | nil => rfl
  | append_singleton l m ih =>
      rw [List.foldl_append, List.foldl_cons, List.foldl_nil, ih,
        appendChat_eq]
      by_cases hl : l.length < 100
      · have h1 : l.length - 100 = 0 := by omega
        have h3 : ¬ 100 < (l.drop (l.length - 100) ++ [m]).length := by
          simp only [List.length_append, List.length_drop, List.length_cons,
            List.length_nil]
          omega
        rw [if_neg h3, h1]
        have h2 : (l ++ [m]).length - 100 = 0 := by
          simp only [List.length_append, List.length_cons, List.length_nil]
          omega
        rw [h2, List.drop_zero, List.drop_zero]
      · have hacc : (l.drop (l.length - 100)).length = 100 := by
          rw [List.length_drop]
          omega
        have hne : l.drop (l.length - 100) ≠ [] := by
          have hpos : 0 < (l.drop (l.length - 100)).length := by
            rw [hacc]
            omega
          exact List.length_pos.mp hpos
        have h3 : 100 < (l.drop (l.length - 100) ++ [m]).length := by
          rw [List.length_append, hacc]
          simp
        rw [if_pos h3]
        rw [List.tail_append_singleton_of_ne_nil hne, List.tail_drop]
        have h4 : (l ++ [m]).length - 100 ≤ l.length := by
          simp only [List.length_append, List.length_cons, List.length_nil]
          omega
        rw [List.drop_append_of_le_length h4]
        have h5 : (l ++ [m]).length - 100 = l.length - 100 + 1 := by
          simp only [List.length_append, List.length_cons, List.length_nil]
          omega
        rw [h5]

/-- C6: after N chat appends the stored log is exactly the most recent
min(N,100) messages in arrival order (oldest evicted first), and the
chat handler on an existing room stores the server-stamped message and
broadcasts that same stamped message to the room. -/
theorem chat_log_bounded :
    (∀ ms : List ChatMessage,
        ms.foldl appendChat [] = ms.drop (ms.length - 100)
        ∧ (ms.foldl appendChat []).length = min ms.length 100)
    ∧ (∀ (s : Store) (now : Int) (roomId : String) (m : ChatMsgIn)
          (r : Room),
        lookupA s roomId = some r →
          chatMessageHandler s now roomId m =
            (upsertA s roomId
              { r with messages := appendChat r.messages (stampMsg m now) },
             [(Target.room roomId, SEvent.chatMessageEv (stampMsg m now))])
          ∧ (stampMsg m now).timestamp = now) := by
  constructor
  · intro ms
    refine ⟨chatFold_drop ms, ?_⟩
    rw [chatFold_drop ms, List.length_drop]
    omega
  · intro s now roomId m r hr
    exact ⟨by simp [chatMessageHandler, hr], rfl⟩

/-- C6 witness: 101 appends keep only the last 100 in order, and a
stamped message (client timestamp 99 overridden to server time 3) is
stored and broadcast. -/
theorem chat_log_bounded_witness :
    (manyMessages.foldl appendChat []
        = manyMessages.drop (manyMessages.length - 100)
     ∧ (manyMessages.foldl appendChat []).length
        = min manyMessages.length 100)
    ∧ (chatMessageHandler pausedStore 3 "r" helloMsg =
        (upsertA pausedStore "r"
          { pausedRoom with
              messages := appendChat pausedRoom.messages (stampMsg helloMsg 3) },
         [(Target.room "r", SEvent.chatMessageEv (stampMsg helloMsg 3))])
       ∧ (stampMsg helloMsg 3).timestamp = 3) :=
  ⟨chat_log_bounded.1 manyMessages,
   chat_log_bounded.2 pausedStore 3 "r" helloMsg pausedRoom rfl⟩

theorem sweepPeer_other (st : RTCHealth) (q : String × ConnState)
    (p : String) (hpq : p ≠ q.1) :
    (sweepPeer st q).timers.count p = st.timers.count p
    ∧ (p ∈ (sweepPeer st q).timers ↔ p ∈ st.timers)
    ∧ (sweepPeer st q).peers = st.peers := by
  by_cases h1 : q.2 = ConnState.failed ∨ q.2 = ConnState.disconnected
  · by_cases h2 : q.1 ∈ st.timers
    · simp [sweepPeer, h1, h2]
    · simp [sweepPeer, h1, h2, List.count_append, List.count_cons, hpq]
  · simp [sweepPeer, h1]

theorem sweep_fold_timers (l : List (String × ConnState)) :
    ∀ (st : RTCHealth) (p : String), (l.map (·.1)).Nodup →
    ((l.foldl sweepPeer st).timers.count p =
        st.timers.count p +
          (if (lookupA l p = some ConnState.failed
               ∨ lookupA l p = some ConnState.disconnected)
              ∧ p ∉ st.timers then 1 else 0))
    ∧ (p ∈ (l.foldl sweepPeer st).timers ↔
        (p ∈ st.timers ∨ lookupA l p = some ConnState.failed
          ∨ lookupA l p = some ConnState.disconnected))
    ∧ (l.foldl sweepPeer st).peers = st.peers := by
  induction l with
  | nil => intro st p _; simp [lookupA]
  | cons hd t ih =>
      intro st p hnd
      obtain ⟨q, c⟩ := hd
      simp only [List.map_cons, List.nodup_cons] at hnd
      by_cases hpq : q = p
      · subst hpq
        have hnone : lookupA t q = none :=
          lookupA_eq_none_of_not_mem hnd.1
        have hlook : lookupA ((q, c) :: t) q = some c := by
          simp [lookupA]
        rw [List.foldl_cons, hlook]
        by_cases h1 : c = ConnState.failed ∨ c = ConnState.disconnected
        · have h1s : some c = some ConnState.failed
              ∨ some c = some ConnState.disconnected := by
            rcases h1 with h | h <;> simp [h]
          by_cases h2 : q ∈ st.timers
          · have hst : sweepPeer st (q, c) = st := by
              simp [sweepPeer, h1, h2]
            obtain ⟨ihc, ihm, ihp⟩ := ih st q hnd.2
            rw [hst]
            refine ⟨?_, ?_, ihp⟩
            · rw [ihc]
              simp [hnone, h2]
            · rw [ihm]
              simp [hnone, h2]
          · have hst : sweepPeer st (q, c)
                = { st with timers := st.timers ++ [q] } := by
              simp [sweepPeer, h1, h2]
            obtain ⟨ihc, ihm, ihp⟩ :=
              ih { st with timers := st.timers ++ [q] } q hnd.2
            rw [hst]
            refine ⟨?_, ?_, ihp⟩
            · rw [ihc]
              have hcz : List.count q st.timers = 0 :=
                List.count_eq_zero_of_not_mem h2
              rcases h1 with h | h <;>
                simp [hnone, h2, List.count_append, hcz, h]
            · rw [ihm]
              rcases h1 with h | h <;> simp [hnone, h]
        · have h1s : ¬ (some c = some ConnState.failed
              ∨ some c = some ConnState.disconnected) := by
            simpa using h1
          have hst : sweepPeer st (q, c) = st := by
            simp only [sweepPeer]
            rw [if_neg h1]
          obtain ⟨ihc, ihm, ihp⟩ := ih st q hnd.2
          rw [hst]
          refine ⟨?_, ?_, ihp⟩
          · rw [ihc]
            simp [hnone, h1]
          · rw [ihm]
            simp [hnone, h1]
      · have hpq' : p ≠ q := Ne.symm hpq
        have hlook : lookupA ((q, c) :: t) p = lookupA t p := by
          simp [lookupA, hpq]
        obtain ⟨sc, sm, sp⟩ := sweepPeer_other st (q, c) p hpq'
        obtain ⟨ihc, ihm, ihp⟩ := ih (sweepPeer st (q, c)) p hnd.2
        rw [List.foldl_cons, hlook]
        refine ⟨?_, ?_, ?_⟩
        · rw [ihc, sc]
          simp only [sm]
        · rw [ihm, sm]
        · rw [ihp, sp]

/-- C7: the health sweep keeps at most one reconnect timer pending per
peer: a pending timer blocks any new scheduling for that peer; with
none pending, a failed/disconnected connection gets exactly one new
timer; at-most-one is preserved; and a connection observed failed on
two consecutive sweep ticks has exactly one timer pending after each
tick. -/
theorem reconnect_timer_unique (st : RTCHealth) (p : String)
    (hnd : (st.peers.map (·.1)).Nodup) :
    (p ∈ st.timers →
        (healthSweep true st).timers.count p = st.timers.count p)
    ∧ (p ∉ st.timers →
        (lookupA st.peers p = some ConnState.failed
          ∨ lookupA st.peers p = some ConnState.disconnected) →
        (healthSweep true st).timers.count p = st.timers.count p + 1)
    ∧ (st.timers.count p ≤ 1 →
        (healthSweep true st).timers.count p ≤ 1)
    ∧ (p ∉ st.timers → lookupA st.peers p = some ConnState.failed →
        (healthSweep true st).timers.count p = 1
        ∧ (healthSweep true (healthSweep true st)).timers.count p = 1) := by
  have hsw : healthSweep true st = st.peers.foldl sweepPeer st := by
    simp [healthSweep]
  obtain ⟨hc, hm, hp⟩ := sweep_fold_timers st.peers st p hnd
  refine ⟨?_, ?_, ?_, ?_⟩
  · intro hmem
    rw [hsw, hc]
    simp [hmem]
  · intro hmem hlk
    rw [hsw, hc]
    simp [hmem, hlk]
  · intro hle
    rw [hsw, hc]
    by_cases hmem : p ∈ st.timers
    · simp [hmem]
      omega
    · have : st.timers.count p = 0 := List.count_eq_zero_of_not_mem hmem
      rw [this]
      split <;> omega
  · intro hmem hlk
    have hz : st.timers.count p = 0 := List.count_eq_zero_of_not_mem hmem
    have h1 : (healthSweep true st).timers.count p = 1 := by
      rw [hsw, hc, hz]
      simp [hmem, hlk]
    refine ⟨h1, ?_⟩
    have hp' : (healthSweep true st).peers = st.peers := by
      rw [hsw]
      exact hp
    have hm1 : p ∈ (healthSweep true st).timers := by
      rw [hsw]
      exact hm.mpr (Or.inr (Or.inl hlk))
    have hnd' : ((healthSweep true st).peers.map (·.1)).Nodup := by
      rw [hp']
      exact hnd
    obtain ⟨hc2, _, _⟩ :=
      sweep_fold_timers (healthSweep true st).peers (healthSweep true st) p
        hnd'
    have hsw2 : healthSweep true (healthSweep true st)
        = (healthSweep true st).peers.foldl sweepPeer (healthSweep true st) := by
      simp [healthSweep]
    rw [hsw2, hc2]
    simp [hm1, h1]

/-- C7 witness: a peer connection observed failed across two consecutive
sweep ticks, starting with no pending timer — exactly one timer is
pending after the first tick and still exactly one after the second. -/
theorem reconnect_timer_unique_witness :
    (healthSweep true failedPeerState).timers.count "x" = 1
    ∧ (healthSweep true (healthSweep true failedPeerState)).timers.count "x"
        = 1 := by
  have h := reconnect_timer_unique failedPeerState "x"
    (by simp [failedPeerState])
  exact h.2.2.2 (by simp [failedPeerState]) rfl

/-- C4 counterexample: the merge is not restricted to recognized
VideoState fields.  A patch carrying the unknown field "foo" = 42 on an
existing room leaves "foo" in the stored state, contradicting the claim
that fields outside the schema do not enter it. -/
theorem unknown_patch_field_stored :
    (lookupA (videoStateHandler playingStore 5 "r" fooPatch).1 "r").map
        (fun r => lookupA r.videoState.extra "foo")
      = some (some (JsVal.num 42)) := rfl

/-- C4 (amended): `updateVideoState` on an existing room shallow-merges
EVERY field of the patch — including fields outside the VideoState
schema, which do enter the stored state — stamps
lastUpdated = serverTimestamp = the current server time regardless of
sender, and broadcasts the full resulting state to the whole room,
sender included. -/
theorem updateVideoState_merge (s : Store) (now : Int) (roomId : String)
    (p : VideoPatch) (r : Room) (hr : lookupA s roomId = some r) :
    videoStateHandler s now roomId p =
      (upsertA s roomId { r with videoState := applyPatch r.videoState p now },
       [(Target.room roomId,
          SEvent.videoStateEv (applyPatch r.videoState p now))])
    ∧ (applyPatch r.videoState p now).lastUpdated = now
    ∧ (applyPatch r.videoState p now).serverTimestamp = now
    ∧ (∀ k v, (p.extra.map (·.1)).Nodup → (k, v) ∈ p.extra →
        lookupA (applyPatch r.videoState p now).extra k = some v) := by
  refine ⟨?_, rfl, rfl, ?_⟩
  · simp [videoStateHandler, hr]
  · intro k v hnd hm
    exact lookupA_mergeExtra_of_mem _ hnd hm

/-- C4 witness: the "foo" patch on the playing room — field-by-field
merge, fresh stamps, room-wide broadcast, and the unknown field
retrievable from the stored state. -/
theorem updateVideoState_merge_witness :
    videoStateHandler playingStore 5 "r" fooPatch =
      (upsertA playingStore "r"
        { playingRoom with
            videoState := applyPatch playingRoom.videoState fooPatch 5 },
       [(Target.room "r",
          SEvent.videoStateEv (applyPatch playingRoom.videoState fooPatch 5))])
    ∧ (applyPatch playingRoom.videoState fooPatch 5).lastUpdated = 5
    ∧ (applyPatch playingRoom.videoState fooPatch 5).serverTimestamp = 5
    ∧ lookupA (applyPatch playingRoom.videoState fooPatch 5).extra "foo"
        = some (JsVal.num 42) := by
  have h := updateVideoState_merge playingStore 5 "r" fooPatch playingRoom rfl
  exact ⟨h.1, h.2.1, h.2.2.1,
    h.2.2.2 "foo" (JsVal.num 42) (by simp [fooPatch]) (by simp [fooPatch])⟩

/-- C1: for a position report on an existing room from a present member,
the store updates that member's connection quality and emits a
sync-correction if and only if drift > 0.3 and the stored state is
playing and the report is not buffering; the correction goes only to
that member's socket (never to the room) and carries the stored
playedSeconds and isPlaying, the current server time, the computed
drift, and the member's (just-updated) quality level. -/
theorem positionReport_correction (s : Store) (now : Int)
    (roomId userId : String) (playedSeconds : ℚ) (isBuffering : Bool)
    (r : Room) (u : User)
    (hr : lookupA s roomId = some r)
    (hu : lookupA r.users userId = some u)
    (hsock : u.socketId ≠ "") :
    positionReport s now roomId userId playedSeconds isBuffering =
      some
        (upsertA s roomId
          { r with
              users := upsertA r.users userId
                { u with
                    connectionQuality := some (updateQuality
                      (u.connectionQuality.getD (initQuality now))
                      |playedSeconds - r.videoState.playedSeconds| now) } },
         if |playedSeconds - r.videoState.playedSeconds| > 0.3
             ∧ r.videoState.isPlaying = true ∧ isBuffering = false then
           [(Target.socket u.socketId,
             SEvent.syncCorrection r.videoState.playedSeconds
               r.videoState.isPlaying now
               |playedSeconds - r.videoState.playedSeconds|
               (updateQuality (u.connectionQuality.getD (initQuality now))
                 |playedSeconds - r.videoState.playedSeconds| now).quality)]
         else []) := by
  simp [positionReport, hr, hu, hsock]

/-- C1 witness: the spec scenario — a report of 125.5s against stored
120.0s, playing, not buffering: drift 5.5 > 0.3, so exactly one
targeted correction goes to alice's socket (quality "poor" after this
first report), and nothing is broadcast to the room. -/
theorem positionReport_correction_witness :
    (positionReport playingStore 7 "r" "alice" 125.5 false).map
        (fun x => x.2)
      = some [(Target.socket "sockA",
          SEvent.syncCorrection 120 true 7 5.5 "poor")] := by
  have h := positionReport_correction playingStore 7 "r" "alice" 125.5 false
    playingRoom aliceUser rfl rfl (by decide)
  rw [h]
  norm_num [playingRoom, aliceUser, initialVideoState, initQuality,
    updateQuality, abs, max_def]

/-- C10: joining an existing room leaves videoState, messages, hostId
and createdAt untouched — the only mutation is the upsert of the
joiner's users entry (refreshing its socket endpoint) — other rooms are
untouched, and joining twice with the same identity yields the same
store as joining once. -/
theorem join_existing_frame (s : Store) (now now2 : Int)
    (roomId userId username socketId : String) (r : Room)
    (hr : lookupA s roomId = some r) :
    lookupA (joinRoom s now roomId userId username socketId).1 roomId =
      some { r with users := upsertA r.users userId
                      (⟨userId, username, socketId, none⟩ : User) }
    ∧ (∀ k, k ≠ roomId →
        lookupA (joinRoom s now roomId userId username socketId).1 k =
          lookupA s k)
    ∧ (joinRoom (joinRoom s now roomId userId username socketId).1 now2
          roomId userId username socketId).1 =
        (joinRoom s now roomId userId username socketId).1 := by
  refine ⟨?_, ?_, ?_⟩
  · simp [joinRoom, hr, lookupA_upsertA_self]
  · intro k hk
    simp [joinRoom, hr, lookupA_upsertA_ne _ _ hk]
  · simp [joinRoom, hr, lookupA_upsertA_self, upsertA_upsertA_same]

/-- C10 witness: alice re-joins the playing room from a new socket; the
room keeps its state, only her entry's endpoint changes, and a repeat
join changes nothing further. -/
theorem join_existing_frame_witness :
    lookupA (joinRoom playingStore 9 "r" "alice" "Alice" "sockB").1 "r" =
      some { playingRoom with
              users := upsertA playingRoom.users "alice"
                (⟨"alice", "Alice", "sockB", none⟩ : User) }
    ∧ (∀ k, k ≠ "r" →
        lookupA (joinRoom playingStore 9 "r" "alice" "Alice" "sockB").1 k =
          lookupA playingStore k)
    ∧ (joinRoom (joinRoom playingStore 9 "r" "alice" "Alice" "sockB").1 10
          "r" "alice" "Alice" "sockB").1 =
        (joinRoom playingStore 9 "r" "alice" "Alice" "sockB").1 :=
  join_existing_frame playingStore 9 10 "r" "alice" "Alice" "sockB"
    playingRoom rfl

end WatchParty
